import Mathlib

/-!
Shallow embedding of the table-handling core of the PdfParser pipeline
(`pdf_pipeline/tables/table_buffer.py`, `pdf_pipeline/tables/table_merge.py`,
`pdf_pipeline/pdf/page_classifier.py`, `pdf_pipeline/pdf/table_extractor.py`,
`pdf_pipeline/utils/geometry.py`), together with theorems settling the
specification claims about it.

Conventions: Python `float` coordinates and ratios are modelled as `ℚ`,
Python `int` page numbers as `ℤ`, and Python `str` values as `List Char`
(so that stripping and lowercasing are kernel-computable).
-/

/-- A Python string, modelled as its list of characters. -/
abbrev PyStr := List Char

/-- Python `str.strip()`: remove leading and trailing whitespace. -/
def pyStrip (s : PyStr) : PyStr :=
  ((s.dropWhile Char.isWhitespace).reverse.dropWhile Char.isWhitespace).reverse

/-- Python `str.lower()`: lowercase every character. -/
def pyLower (s : PyStr) : PyStr :=
  s.map Char.toLower

/-- `TableBlock` dataclass from `pdf/table_extractor.py`: a table extracted
from the PDF, with page span, header row, data rows, bounding box
`(x0, y0, x1, y1)` and column x-coordinates. -/
structure TableBlock where
  page_start : ℤ
  page_end : ℤ
  columns : List PyStr
  rows : List (List PyStr)
  bbox : ℚ × ℚ × ℚ × ℚ
  x_coordinates : List ℚ
deriving DecidableEq

/-- `MergedTable` dataclass from `tables/table_buffer.py`: a table that may
span multiple pages, with the list of original blocks it came from and a
`(start_page, end_page)` range. -/
structure MergedTable where
  original_tables : List TableBlock
  columns : List PyStr
  rows : List (List PyStr)
  page_range : ℤ × ℤ
deriving DecidableEq

/-- `merge_tables_if_compatible` from `tables/table_merge.py`: order the two
tables by `page_start`, concatenate rows first-then-second, take the min/max
page range, the first table's columns (falling back to the second's when the
first's are empty), the component-wise min/max bounding box, and the first
table's x-coordinates (falling back to the second's). -/
def merge_tables_if_compatible (table1 table2 : TableBlock) : TableBlock :=
  let first_table := if table1.page_start ≤ table2.page_start then table1 else table2
  let second_table := if table1.page_start ≤ table2.page_start then table2 else table1
  let merged_rows := first_table.rows ++ second_table.rows
  let merged_page_start := min first_table.page_start second_table.page_start
  let merged_page_end := max first_table.page_end second_table.page_end
  let merged_columns := if first_table.columns ≠ [] then first_table.columns else second_table.columns
  let merged_bbox : ℚ × ℚ × ℚ × ℚ :=
    (min first_table.bbox.1 second_table.bbox.1,
     min first_table.bbox.2.1 second_table.bbox.2.1,
     max first_table.bbox.2.2.1 second_table.bbox.2.2.1,
     max first_table.bbox.2.2.2 second_table.bbox.2.2.2)
  let merged_x_coords :=
    if first_table.x_coordinates ≠ [] then first_table.x_coordinates else second_table.x_coordinates
  ⟨merged_page_start, merged_page_end, merged_columns, merged_rows, merged_bbox, merged_x_coords⟩

/-- `TableBuffer._compare_headers` from `tables/table_buffer.py` (textually
identical to `compare_headers` in `tables/table_merge.py`): similarity ratio
of two header lists, `0` when the lengths differ, otherwise the fraction of
positions whose entries agree after stripping and lowercasing (and `1.0`
when the first list is empty). -/
def compare_headers (headers1 headers2 : List PyStr) : ℚ :=
  if headers1.length ≠ headers2.length then 0
  else if headers1 ≠ [] then
    (((headers1.zip headers2).countP
        fun p => decide (pyLower (pyStrip p.1) = pyLower (pyStrip p.2))) : ℚ) /
      (headers1.length : ℚ)
  else 1

/-- The column-count guard block of `TableBuffer._can_merge_tables` (and of
`is_table_continuation`): the column counts agree, or one table's first data
row has as many cells as the other table's column count. -/
def column_count_ok (table1 table2 : TableBlock) : Bool :=
  if table1.columns.length ≠ table2.columns.length then
    if 0 < table1.rows.length ∧ table1.rows.headI.length = table2.columns.length then true
    else if 0 < table2.rows.length ∧ table2.rows.headI.length = table1.columns.length then true
    else false
  else true

/-- The x-coordinate guard block of `TableBuffer._can_merge_tables` (and of
`is_table_continuation`): when both tables report column x-coordinates, the
coordinate counts must agree and corresponding coordinates must be within
`column_tolerance` of each other. -/
def x_coords_ok (table1 table2 : TableBlock) (column_tolerance : ℚ) : Bool :=
  if table1.x_coordinates ≠ [] ∧ table2.x_coordinates ≠ [] then
    if table1.x_coordinates.length ≠ table2.x_coordinates.length then false
    else (table1.x_coordinates.zip table2.x_coordinates).all
      fun p => decide (|p.1 - p.2| ≤ column_tolerance)
  else true

/-- The header guard block of `TableBuffer._can_merge_tables` (and of
`is_table_continuation`): when both tables have non-empty headers,
their similarity must not fall below `0.7`. -/
def headers_ok (table1 table2 : TableBlock) : Bool :=
  if table1.columns ≠ [] ∧ table2.columns ≠ [] then
    if compare_headers table1.columns table2.columns < 7/10 then false else true
  else true

/-- `TableBuffer._can_merge_tables` from `tables/table_buffer.py`: the merge
test, a sequence of early-return guards (page gap, column count,
x-coordinates, headers); the early-return chain is the conjunction of its
guards. -/
def can_merge_tables (table1 table2 : TableBlock) : Bool :=
  decide (|table2.page_start - table1.page_end| ≤ 1) &&
  column_count_ok table1 table2 &&
  x_coords_ok table1 table2 10 &&
  headers_ok table1 table2

/-- `is_table_continuation` from `tables/table_merge.py`: same guards as
`TableBuffer._can_merge_tables`, with the page gap and column tolerance as
parameters (defaults `1` and `10.0`). -/
def is_table_continuation (table1 table2 : TableBlock)
    (max_page_gap : ℤ) (column_tolerance : ℚ) : Bool :=
  decide (|table2.page_start - table1.page_end| ≤ max_page_gap) &&
  column_count_ok table1 table2 &&
  x_coords_ok table1 table2 column_tolerance &&
  headers_ok table1 table2

/-- `TableBuffer.add` from `tables/table_buffer.py`: when a page number is
given, stamp the candidate's `page_start` and `page_end` with it, then
append the candidate to the buffer's list. -/
def TableBuffer.add (tables : List TableBlock) (table : TableBlock)
    (page_num : Option ℤ) : List TableBlock :=
  match page_num with
  | some p => tables ++ [⟨p, p, table.columns, table.rows, table.bbox, table.x_coordinates⟩]
  | none => tables ++ [table]

/-- The sort key used by `TableBuffer.merge`: compare tables by `page_start`. -/
def pageLe (t1 t2 : TableBlock) : Prop := t1.page_start ≤ t2.page_start

instance : DecidableRel pageLe := fun t1 t2 => Int.decLe t1.page_start t2.page_start

/-- The inner `while` loop of `TableBuffer.merge`: starting from the current
(possibly already merged) table, keep absorbing the next sorted table while
the merge test succeeds; returns the final current table, the slice
`sorted_tables[i:j]` of tables covered so far, and the unprocessed rest. -/
def absorbRun (current : TableBlock) (covered : List TableBlock) :
    List TableBlock → TableBlock × List TableBlock × List TableBlock
  | [] => (current, covered, [])
  | t :: rest =>
    if can_merge_tables current t then
      absorbRun (merge_tables_if_compatible current t) (covered ++ [t]) rest
    else (current, covered, t :: rest)

theorem absorbRun_remaining_length (current : TableBlock) (covered : List TableBlock)
    (l : List TableBlock) : (absorbRun current covered l).2.2.length ≤ l.length := by
  induction l generalizing current covered with
  | nil => simp [absorbRun]
  | cons t rest ih =>
    simp only [absorbRun]
    split
    · exact le_trans (ih _ _) (Nat.le_succ _)
    · simp

/-- The outer `while` loop of `TableBuffer.merge`: process the sorted tables
left to right; each step absorbs a maximal run of mergeable tables into the
current table and emits one `MergedTable` whose `original_tables` is the
slice of sorted tables the run covered. -/
def mergeSweep : List TableBlock → List MergedTable
  | [] => []
  | t :: rest =>
    MergedTable.mk (absorbRun t [t] rest).2.1 (absorbRun t [t] rest).1.columns
        (absorbRun t [t] rest).1.rows
        ((absorbRun t [t] rest).1.page_start, (absorbRun t [t] rest).1.page_end)
      :: mergeSweep (absorbRun t [t] rest).2.2
termination_by l => l.length
decreasing_by
  exact Nat.lt_succ_of_le (absorbRun_remaining_length t [t] rest)

/-- `TableBuffer.merge` from `tables/table_buffer.py`: return `[]` for an
empty buffer, otherwise sort the buffered tables by `page_start` (Python's
stable sort, modelled by `insertionSort`) and sweep the sorted list, merging
each maximal mergeable run into one `MergedTable`. -/
def TableBuffer.merge (tables : List TableBlock) : List MergedTable :=
  if tables.isEmpty then []
  else mergeSweep (List.insertionSort pageLe tables)

/-- The row-cleaning loop of `normalize_table` in `tables/table_buffer.py`:
keep a row when some cell is non-empty after stripping, and strip every cell
of the kept rows. -/
def cleanRowsAux : List (List PyStr) → List (List PyStr)
  | [] => []
  | row :: rest =>
    if row.any fun cell => decide (pyStrip cell ≠ []) then
      (row.map fun cell => pyStrip cell) :: cleanRowsAux rest
    else cleanRowsAux rest

/-- `normalize_table` from `tables/table_buffer.py`: rebuild the table with
the cleaned rows; the other fields are copied over unchanged. -/
def normalize_table (table : MergedTable) : MergedTable :=
  ⟨table.original_tables, table.columns, cleanRowsAux table.rows, table.page_range⟩

/-- Round half to even, as Python's built-in `round` does on the value
`q` (ties go to the even integer). -/
def roundHalfEven (q : ℚ) : ℤ :=
  if q - ⌊q⌋ < 1/2 then ⌊q⌋
  else if 1/2 < q - ⌊q⌋ then ⌊q⌋ + 1
  else if ⌊q⌋ % 2 = 0 then ⌊q⌋ else ⌊q⌋ + 1

/-- Python `round(x, -1)` as used in `detect_table_structure`: round to the
nearest multiple of 10, ties to the even multiple. -/
def roundTo10 (x : ℚ) : ℚ :=
  10 * (roundHalfEven (x / 10) : ℚ)

/-- One step of the `column_candidates` dictionary update in
`detect_table_structure`: bump the count of the bin `b`, inserting it with
count 1 when absent. The dictionary is modelled as an association list. -/
def addCandidate (counts : List (ℚ × ℕ)) (b : ℚ) : List (ℚ × ℕ) :=
  if counts.any fun p => p.1 == b then
    counts.map fun p => if p.1 == b then (p.1, p.2 + 1) else p
  else counts ++ [(b, 1)]

/-- The `column_candidates` dictionary of `detect_table_structure` after
processing all rounded span x-coordinates. -/
def column_candidates (bins : List ℚ) : List (ℚ × ℕ) :=
  bins.foldl addCandidate []

/-- `detect_table_structure` from `pdf/page_classifier.py`. The page's text
lines are modelled by the left x-coordinates of their spans. Keep the lines
with more than one span; with fewer than 3 such lines there is no table;
otherwise round every span coordinate to its 10-unit bin, count occurrences
per bin, and report a table when at least 2 bins have at least 3
occurrences. -/
def detect_table_structure (pageLines : List (List ℚ)) : Bool :=
  let lines := pageLines.filter fun spans => decide (1 < spans.length)
  if lines.length < 3 then false
  else
    let cand := column_candidates ((lines.flatMap id).map roundTo10)
    decide (2 ≤ cand.countP fun p => decide (3 ≤ p.2))

/-- The `special_chars_ratio` computed inside `determine_if_scan`: the
fraction of characters of the raw text that are neither alphanumeric nor a
space (with the denominator clamped to at least 1). -/
def specialCharsFrac (raw_text : List Char) : ℚ :=
  ((raw_text.countP fun c => !c.isAlphanum && c != ' ') : ℚ) /
    ((max raw_text.length 1 : ℕ) : ℚ)

/-- `determine_if_scan` from `pdf/page_classifier.py`: a page is a scan when
it has fewer than 10 characters, or low text density together with images,
or low text density together with a high special-character fraction. (The
unused `drawing_paths` argument is omitted.) -/
def determine_if_scan (char_count : ℕ) (text_density : ℚ) (image_count : ℕ)
    (raw_text : List Char) : Bool :=
  if char_count < 10 then true
  else if text_density < 5/100 ∧ 0 < image_count then true
  else if text_density < 1/10 ∧ 3/10 < specialCharsFrac raw_text then true
  else false

/-- `lines_align_as_table` from `pdf/table_extractor.py`. The two lines are
modelled by the left x-coordinates of their spans. The lines align when
their span counts differ by at most 1 and the number of index-matched span
pairs within `tolerance` reaches `min_matches // 2` (Python floor
division). -/
def lines_align_as_table (spans1 spans2 : List ℚ) (tolerance : ℚ) : Bool :=
  if 1 < |(spans1.length : ℤ) - (spans2.length : ℤ)| then false
  else
    let min_matches := min spans1.length spans2.length
    let match_count := (spans1.zip spans2).countP fun p => decide (|p.1 - p.2| ≤ tolerance)
    decide (min_matches / 2 ≤ match_count)

/-- The clustering loop of `get_column_positions` in `utils/geometry.py`:
scan the coordinates, appending a coordinate as a new column unless it lies
within `tolerance` of an already recorded column. -/
def clusterColumns (tolerance : ℚ) (columns : List ℚ) : List ℚ → List ℚ
  | [] => columns
  | coord :: rest =>
    if columns.any fun col => decide (|coord - col| ≤ tolerance) then
      clusterColumns tolerance columns rest
    else clusterColumns tolerance (columns ++ [coord]) rest

/-- `get_column_positions` from `utils/geometry.py`: collect the left
x-coordinates of the boxes, sort them, cluster them with the given
tolerance, and return the sorted cluster representatives. -/
def get_column_positions (bboxes : List (ℚ × ℚ × ℚ × ℚ)) (tolerance : ℚ) : List ℚ :=
  if bboxes.isEmpty then []
  else
    let x_coords := List.insertionSort (· ≤ ·) (bboxes.map fun b => b.1)
    let columns := clusterColumns tolerance [] x_coords
    List.insertionSort (· ≤ ·) columns

/-! ### Spec-side definitions used to state the claims -/

/-- Modelled from the spec wording of claim C3: the table with
smaller-or-equal `page_start` becomes `first`, the result takes
`first.rows ++ second.rows`, first's columns if non-empty else second's,
the min/max page range, the component-wise min/max bounding box, and
first's x-coordinates if non-empty else second's. -/
def specMergedTable (t1 t2 : TableBlock) : TableBlock :=
  let first := if t1.page_start ≤ t2.page_start then t1 else t2
  let second := if t1.page_start ≤ t2.page_start then t2 else t1
  ⟨min t1.page_start t2.page_start,
   max t1.page_end t2.page_end,
   if first.columns ≠ [] then first.columns else second.columns,
   first.rows ++ second.rows,
   (min t1.bbox.1 t2.bbox.1, min t1.bbox.2.1 t2.bbox.2.1,
    max t1.bbox.2.2.1 t2.bbox.2.2.1, max t1.bbox.2.2.2 t2.bbox.2.2.2),
   if first.x_coordinates ≠ [] then first.x_coordinates else second.x_coordinates⟩

/-- C3: for every pair of tables, `merge_tables_if_compatible` orders them by
`page_start` (the one with smaller-or-equal `page_start` first) and returns
the table with concatenated rows, first's columns falling back to second's,
the min/max page range, the component-wise min/max bounding box, and first's
x-coordinates falling back to second's. -/
theorem merge_tables_if_compatible_spec (t1 t2 : TableBlock) :
    merge_tables_if_compatible t1 t2 = specMergedTable t1 t2 := by
  unfold merge_tables_if_compatible specMergedTable
  by_cases h : t1.page_start ≤ t2.page_start
  · simp [h]
  · simp only [h, if_false, if_neg h]
    refine TableBlock.mk.injEq .. |>.mpr ⟨?_, ?_, rfl, rfl, ?_, rfl⟩
    · exact min_comm t2.page_start t1.page_start
    · exact max_comm t2.page_end t1.page_end
    · exact Prod.ext (min_comm _ _) (Prod.ext (min_comm _ _) (Prod.ext (max_comm _ _) (max_comm _ _)))

/-- C5: `determine_if_scan` returns true iff the character count is below 10,
or the text density is below 0.05 with at least one image, or the text
density is below 0.1 with a special-character fraction above 0.3; in
particular a character count below 10 forces a scan verdict. -/
theorem determine_if_scan_spec (char_count : ℕ) (text_density : ℚ) (image_count : ℕ)
    (raw_text : List Char) :
    (determine_if_scan char_count text_density image_count raw_text = true ↔
      char_count < 10 ∨ (text_density < 5/100 ∧ 0 < image_count) ∨
        (text_density < 1/10 ∧ 3/10 < specialCharsFrac raw_text)) ∧
    (char_count < 10 → determine_if_scan char_count text_density image_count raw_text = true) := by
  constructor
  · unfold determine_if_scan
    split_ifs with h1 h2 h3 <;> simp_all
  · intro h
    unfold determine_if_scan
    simp [h]

/-- Witness for C5 at a concrete input: a page with 5 characters is
classified as a scan whatever the other signals say. -/
theorem determine_if_scan_spec_witness :
    5 < 10 ∧ determine_if_scan 5 1 0 [] = true :=
  ⟨by decide, (determine_if_scan_spec 5 1 0 []).2 (by decide)⟩

theorem cleanRowsAux_eq (rows : List (List PyStr)) :
    cleanRowsAux rows =
      (rows.filter fun row => row.any fun cell => decide (pyStrip cell ≠ [])).map
        fun row => row.map fun cell => pyStrip cell := by
  induction rows with
  | nil => rfl
  | cons row rest ih =>
    by_cases h : ∃ x ∈ row, ¬ pyStrip x = []
    · have hb : (row.any fun cell => decide (pyStrip cell ≠ [])) = true := by simpa using h
      rw [cleanRowsAux, if_pos hb, ih]
      simp [List.filter_cons, h]
    · have hb : ¬ ((row.any fun cell => decide (pyStrip cell ≠ [])) = true) := by simpa using h
      rw [cleanRowsAux, if_neg hb, ih]
      simp [List.filter_cons, h]

/-- A concrete table whose header has surrounding whitespace, used to refute
the header-stripping part of claim C7. -/
def mt7 : MergedTable :=
  ⟨[], [[' ', 'A', ' ']], [[[' ', 'x', ' '], []], [[' '], [' ', ' ']]], (1, 1)⟩

/-- C7 counterexample: `normalize_table` leaves the header string `" A "`
untouched even though it is not whitespace-stripped, contradicting the
claim that every header string is stripped. -/
theorem normalize_table_counterexample :
    (normalize_table mt7).columns = [[' ', 'A', ' ']] ∧
    pyStrip [' ', 'A', ' '] ≠ [' ', 'A', ' '] := by
  constructor
  · rfl
  · decide

/-- C7 amended: `normalize_table` strips every cell of the kept rows, drops
the rows whose cells are all empty after stripping, and copies the columns
(unstripped), the original tables and the page range over unchanged. -/
theorem normalize_table_spec (table : MergedTable) :
    normalize_table table =
      ⟨table.original_tables, table.columns,
       (table.rows.filter fun row => row.any fun cell => decide (pyStrip cell ≠ [])).map
         fun row => row.map fun cell => pyStrip cell,
       table.page_range⟩ := by
  unfold normalize_table
  rw [cleanRowsAux_eq]

/-- Modelled from the spec wording of claims C6: the two lines' run counts
differ by at most one, and at least half of the index-matched run pairs lie
within the tolerance. -/
def specLinesAlign (spans1 spans2 : List ℚ) (tolerance : ℚ) : Prop :=
  |(spans1.length : ℤ) - (spans2.length : ℤ)| ≤ 1 ∧
  min spans1.length spans2.length ≤
    2 * ((spans1.zip spans2).countP fun p => decide (|p.1 - p.2| ≤ tolerance))

/-- C6 counterexample: a one-span line next to a two-span line with no
aligned pair at all is accepted by `lines_align_as_table` (the code demands
`matches ≥ min // 2 = 0`), while the claimed at-least-half condition fails
(`0 < 1/2`). -/
theorem lines_align_as_table_counterexample :
    lines_align_as_table [0] [100, 200] 5 = true ∧ ¬ specLinesAlign [0] [100, 200] 5 := by
  constructor
  · norm_num [lines_align_as_table]
  · norm_num [specLinesAlign]

/-- C6 amended: `lines_align_as_table` accepts two lines iff their run
counts differ by at most one and the number of index-matched pairs within
tolerance reaches the floor of half the shorter length (Python `min // 2`).
-/
theorem lines_align_as_table_iff (spans1 spans2 : List ℚ) (tolerance : ℚ) :
    lines_align_as_table spans1 spans2 tolerance = true ↔
      |(spans1.length : ℤ) - (spans2.length : ℤ)| ≤ 1 ∧
      min spans1.length spans2.length / 2 ≤
        (spans1.zip spans2).countP fun p => decide (|p.1 - p.2| ≤ tolerance) := by
  unfold lines_align_as_table
  split_ifs with h
  · simp only [Bool.false_eq_true, false_iff, not_and]
    intro hc
    exact absurd hc (not_le.mpr h)
  · simp [decide_eq_true_iff, not_lt.mp h]

/-- Modelled from the spec wording of claim C1: the per-position
case/whitespace-insensitive equality rate of two header lists, with
similarity 0 for lists of unequal length. -/
def specHeaderSimilarity (headers1 headers2 : List PyStr) : ℚ :=
  if headers1.length = headers2.length then
    (((headers1.zip headers2).countP
        fun p => decide (pyLower (pyStrip p.1) = pyLower (pyStrip p.2))) : ℚ) /
      (headers1.length : ℚ)
  else 0

/-- Modelled from the spec wording of claim C1: the four conditions the
merge test is claimed to be equivalent to. -/
def specCanMerge (t1 t2 : TableBlock) : Prop :=
  |t2.page_start - t1.page_end| ≤ 1 ∧
  (t1.columns.length = t2.columns.length ∨
    (t1.rows ≠ [] ∧ t1.rows.headI.length = t2.columns.length) ∨
    (t2.rows ≠ [] ∧ t2.rows.headI.length = t1.columns.length)) ∧
  (t1.x_coordinates ≠ [] → t2.x_coordinates ≠ [] →
    (t1.x_coordinates.length = t2.x_coordinates.length ∧
     ∀ p ∈ t1.x_coordinates.zip t2.x_coordinates, |p.1 - p.2| ≤ 10)) ∧
  (t1.columns ≠ [] → t2.columns ≠ [] →
    7/10 ≤ specHeaderSimilarity t1.columns t2.columns)

theorem column_count_ok_iff (t1 t2 : TableBlock) :
    column_count_ok t1 t2 = true ↔
      (t1.columns.length = t2.columns.length ∨
        (t1.rows ≠ [] ∧ t1.rows.headI.length = t2.columns.length) ∨
        (t2.rows ≠ [] ∧ t2.rows.headI.length = t1.columns.length)) := by
  unfold column_count_ok
  split_ifs with h1 h2 h3 <;> simp_all [List.length_pos]

theorem x_coords_ok_iff (t1 t2 : TableBlock) (tol : ℚ) :
    x_coords_ok t1 t2 tol = true ↔
      (t1.x_coordinates ≠ [] → t2.x_coordinates ≠ [] →
        (t1.x_coordinates.length = t2.x_coordinates.length ∧
         ∀ p ∈ t1.x_coordinates.zip t2.x_coordinates, |p.1 - p.2| ≤ tol)) := by
  unfold x_coords_ok
  split_ifs with h1 h2
  · simp_all
  · simp_all [List.all_eq_true]
  · rw [not_and_or] at h1
    simp only [true_iff]
    intro ha hb
    rcases h1 with h1 | h1 <;> tauto

theorem compare_headers_eq_spec (h1 h2 : List PyStr) (hne : h1 ≠ []) :
    compare_headers h1 h2 = specHeaderSimilarity h1 h2 := by
  unfold compare_headers specHeaderSimilarity
  by_cases hlen : h1.length = h2.length
  · rw [if_neg (by simpa using hlen), if_pos hne, if_pos hlen]
  · rw [if_pos hlen, if_neg hlen]

theorem headers_ok_iff (t1 t2 : TableBlock) :
    headers_ok t1 t2 = true ↔
      (t1.columns ≠ [] → t2.columns ≠ [] →
        7/10 ≤ specHeaderSimilarity t1.columns t2.columns) := by
  unfold headers_ok
  split_ifs with h1 h2
  · rw [compare_headers_eq_spec _ _ h1.1] at h2
    simp only [Bool.false_eq_true, false_iff]
    intro hc
    exact absurd (hc h1.1 h1.2) (not_le.mpr h2)
  · rw [compare_headers_eq_spec _ _ h1.1] at h2
    simp only [true_iff]
    intro _ _
    exact not_lt.mp h2
  · rw [not_and_or] at h1
    simp only [true_iff]
    intro ha hb
    rcases h1 with h1 | h1 <;> tauto

/-- C1: the merge test `TableBuffer._can_merge_tables` (equivalently
`is_table_continuation` at its default gap 1 and tolerance 10) succeeds iff
the absolute page gap is at most 1, the column counts are compatible (equal,
or one table's first data row length equals the other's column count), the
x-coordinate lists (when both non-empty) have equal length and agree within
10 units pairwise, and the headers (when both non-empty) have similarity at
least 0.7 — a similarity of exactly 0.7 passes. -/
theorem can_merge_tables_iff (t1 t2 : TableBlock) :
    (can_merge_tables t1 t2 = true ↔ specCanMerge t1 t2) ∧
    (is_table_continuation t1 t2 1 10 = true ↔ specCanMerge t1 t2) := by
  have heq : is_table_continuation t1 t2 1 10 = can_merge_tables t1 t2 := rfl
  have hmain : can_merge_tables t1 t2 = true ↔ specCanMerge t1 t2 := by
    unfold can_merge_tables specCanMerge
    rw [Bool.and_eq_true, Bool.and_eq_true, Bool.and_eq_true]
    rw [decide_eq_true_iff, column_count_ok_iff, x_coords_ok_iff, headers_ok_iff]
    tauto
  exact ⟨hmain, heq ▸ hmain⟩

/-- A one-page table with no columns, rows or x-coordinates, used as a
witness input for claim C1. -/
def wt1 : TableBlock := ⟨1, 1, [], [], (0, 0, 0, 0), []⟩

/-- A second one-page table on the following page, used as a witness input
for claim C1. -/
def wt2 : TableBlock := ⟨2, 2, [], [], (0, 0, 0, 0), []⟩

/-- Witness for C1 at a concrete pair of tables: the merge test succeeds and
the four spec conditions hold. -/
theorem can_merge_tables_iff_witness : specCanMerge wt1 wt2 :=
  (can_merge_tables_iff wt1 wt2).1.mp (by decide)

theorem clusterColumns_mem (tol : ℚ) (l : List ℚ) :
    ∀ (cols : List ℚ), ∀ x ∈ clusterColumns tol cols l, x ∈ cols ∨ x ∈ l := by
  induction l with
  | nil =>
    intro cols x hx
    exact Or.inl hx
  | cons c rest ih =>
    intro cols x hx
    rw [clusterColumns] at hx
    split at hx
    · rcases ih cols x hx with h | h
      · exact Or.inl h
      · exact Or.inr (List.mem_cons_of_mem _ h)
    · rcases ih (cols ++ [c]) x hx with h | h
      · rcases List.mem_append.mp h with h' | h'
        · exact Or.inl h'
        · exact Or.inr (List.mem_cons.mpr (Or.inl (List.mem_singleton.mp h')))
      · exact Or.inr (List.mem_cons_of_mem _ h)

theorem clusterColumns_pairwise (tol : ℚ) (l : List ℚ) :
    ∀ (cols : List ℚ), cols.Pairwise (fun a b => tol < |a - b|) →
      (clusterColumns tol cols l).Pairwise (fun a b => tol < |a - b|) := by
  induction l with
  | nil =>
    intro cols h
    exact h
  | cons c rest ih =>
    intro cols h
    rw [clusterColumns]
    split
    · exact ih cols h
    · rename_i hany
      refine ih (cols ++ [c]) (List.pairwise_append.mpr ⟨h, List.pairwise_singleton _ _, ?_⟩)
      intro a ha b hb
      rw [List.mem_singleton.mp hb, abs_sub_comm]
      refine not_le.mp fun hc => ?_
      exact hany (List.any_eq_true.mpr ⟨a, ha, decide_eq_true hc⟩)

/-- Shared fact for claim C9: `get_column_positions` sorts the collected
left x-coordinates before clustering, so permuting the input boxes cannot
change the output. -/
theorem get_column_positions_perm_aux (l1 l2 : List (ℚ × ℚ × ℚ × ℚ)) (tolerance : ℚ)
    (h : l1.Perm l2) :
    get_column_positions l1 tolerance = get_column_positions l2 tolerance := by
  by_cases h1 : l1 = []
  · subst h1
    rw [h.symm.eq_nil]
  · have h2 : l2 ≠ [] := by
      intro hc
      subst hc
      exact h1 h.eq_nil
    unfold get_column_positions
    rw [if_neg (by simpa using h1), if_neg (by simpa using h2)]
    have heq : List.insertionSort (· ≤ ·) (l1.map fun b => b.1) =
        List.insertionSort (· ≤ ·) (l2.map fun b => b.1) := by
      refine List.eq_of_perm_of_sorted ?_ (List.sorted_insertionSort _ _)
        (List.sorted_insertionSort _ _)
      exact (List.perm_insertionSort _ _).trans ((h.map _).trans
        (List.perm_insertionSort _ _).symm)
    rw [heq]

/-- C9 counterexample to the claimed order-sensitivity: there is no pair of
permuted input lists on which `get_column_positions` disagrees. -/
theorem get_column_positions_order_insensitive :
    ¬ ∃ (l1 l2 : List (ℚ × ℚ × ℚ × ℚ)) (tolerance : ℚ),
      l1.Perm l2 ∧ get_column_positions l1 tolerance ≠ get_column_positions l2 tolerance := by
  rintro ⟨l1, l2, tolerance, hperm, hne⟩
  exact hne (get_column_positions_perm_aux l1 l2 tolerance hperm)

/-- C9 amended: `get_column_positions` sorts the left x-coordinates before
clustering (each cluster's representative is its first-seen coordinate in
sorted order, not a centroid), so the function is insensitive to the
processing order of its input: permuted inputs give identical outputs. -/
theorem get_column_positions_perm_invariant (l1 l2 : List (ℚ × ℚ × ℚ × ℚ)) (tolerance : ℚ)
    (h : l1.Perm l2) :
    get_column_positions l1 tolerance = get_column_positions l2 tolerance :=
  get_column_positions_perm_aux l1 l2 tolerance h

/-- Witness for the amended C9 at a concrete permuted pair of box lists. -/
theorem get_column_positions_perm_invariant_witness :
    ([((0:ℚ), (0:ℚ), (1:ℚ), (1:ℚ)), ((20:ℚ), (0:ℚ), (2:ℚ), (2:ℚ))]).Perm
        [((20:ℚ), (0:ℚ), (2:ℚ), (2:ℚ)), ((0:ℚ), (0:ℚ), (1:ℚ), (1:ℚ))] ∧
    get_column_positions [((0:ℚ), (0:ℚ), (1:ℚ), (1:ℚ)), ((20:ℚ), (0:ℚ), (2:ℚ), (2:ℚ))] 10 =
      get_column_positions [((20:ℚ), (0:ℚ), (2:ℚ), (2:ℚ)), ((0:ℚ), (0:ℚ), (1:ℚ), (1:ℚ))] 10 :=
  ⟨by decide, get_column_positions_perm_invariant _ _ 10 (by decide)⟩

/-- C10: for a non-negative tolerance, `get_column_positions` returns a
strictly increasing list whose every element is the left edge of some input
box, and whose distinct values pairwise differ by more than the tolerance.
-/
theorem get_column_positions_invariants (bboxes : List (ℚ × ℚ × ℚ × ℚ)) (tolerance : ℚ)
    (htol : 0 ≤ tolerance) :
    (get_column_positions bboxes tolerance).Sorted (· < ·) ∧
    (∀ x ∈ get_column_positions bboxes tolerance, x ∈ bboxes.map fun b => b.1) ∧
    (get_column_positions bboxes tolerance).Pairwise fun a b => tolerance < |a - b| := by
  unfold get_column_positions
  split_ifs with h
  · simp
  · have habs : Symmetric fun a b : ℚ => tolerance < |a - b| := by
      intro a b hab
      rwa [abs_sub_comm]
    have hpw : (clusterColumns tolerance []
        (List.insertionSort (· ≤ ·) (bboxes.map fun b => b.1))).Pairwise
          (fun a b => tolerance < |a - b|) :=
      clusterColumns_pairwise _ _ _ List.Pairwise.nil
    have hpw' : (List.insertionSort (· ≤ ·) (clusterColumns tolerance []
        (List.insertionSort (· ≤ ·) (bboxes.map fun b => b.1)))).Pairwise
          (fun a b => tolerance < |a - b|) :=
      ((List.perm_insertionSort _ _).pairwise_iff fun hab => habs hab).mpr hpw
    have hsorted := List.sorted_insertionSort (α := ℚ) (· ≤ ·)
      (clusterColumns tolerance [] (List.insertionSort (· ≤ ·) (bboxes.map fun b => b.1)))
    refine ⟨?_, ?_, hpw'⟩
    · refine List.Pairwise.imp ?_ (hsorted.and hpw')
      intro a b hab
      refine lt_of_le_of_ne hab.1 fun heq => ?_
      have h0 : |a - b| = 0 := by rw [heq, sub_self, abs_zero]
      exact absurd hab.2 (by rw [h0]; exact not_lt.mpr htol)
    · intro x hx
      rw [List.mem_insertionSort] at hx
      rcases clusterColumns_mem _ _ _ x hx with h' | h'
      · cases h'
      · rwa [List.mem_insertionSort] at h'

theorem absorbRun_covered_append (current : TableBlock) (covered l : List TableBlock) :
    (absorbRun current covered l).2.1 ++ (absorbRun current covered l).2.2 = covered ++ l := by
  induction l generalizing current covered with
  | nil => simp [absorbRun]
  | cons t rest ih =>
    rw [absorbRun]
    split
    · rw [ih]
      simp
    · rfl

theorem mergeSweep_flatMap_le (n : ℕ) :
    ∀ l : List TableBlock, l.length ≤ n →
      (mergeSweep l).flatMap (fun m => m.original_tables) = l := by
  induction n with
  | zero =>
    intro l hl
    rw [List.eq_nil_of_length_eq_zero (Nat.le_zero.mp hl)]
    simp [mergeSweep]
  | succ n ih =>
    intro l hl
    match l with
    | [] => simp [mergeSweep]
    | t :: rest =>
      rw [mergeSweep, List.flatMap_cons]
      have h2 : (absorbRun t [t] rest).2.2.length ≤ n :=
        le_trans (absorbRun_remaining_length _ _ _) (by simpa using hl)
      rw [ih _ h2]
      simpa using absorbRun_covered_append t [t] rest

theorem mergeSweep_flatMap (l : List TableBlock) :
    (mergeSweep l).flatMap (fun m => m.original_tables) = l :=
  mergeSweep_flatMap_le l.length l le_rfl

/-- C8: `TableBuffer.add` with a page number stamps the candidate's
`page_start` and `page_end` with that number and leaves its other fields
unchanged; `TableBuffer.merge` never alters a buffered candidate — the
`original_tables` of its results, concatenated, are exactly the buffered
candidates in sorted page order (a permutation of the buffer), each
appearing unchanged, whether absorbed into a merged run or passed through
as a singleton. -/
theorem buffer_preserves_candidates :
    (∀ (tables : List TableBlock) (table : TableBlock) (p : ℤ),
      TableBuffer.add tables table (some p) =
        tables ++ [⟨p, p, table.columns, table.rows, table.bbox, table.x_coordinates⟩]) ∧
    (∀ tables : List TableBlock,
      (TableBuffer.merge tables).flatMap (fun m => m.original_tables) =
        List.insertionSort pageLe tables) ∧
    (∀ tables : List TableBlock, (List.insertionSort pageLe tables).Perm tables) := by
  refine ⟨fun _ _ _ => rfl, fun tables => ?_, fun tables => List.perm_insertionSort _ _⟩
  unfold TableBuffer.merge
  split_ifs with h
  · rw [List.isEmpty_iff.mp h]
    simp
  · exact mergeSweep_flatMap _

theorem mem_zip_self {α : Type} : ∀ (l : List α), ∀ p ∈ l.zip l, p.1 = p.2
  | [] => by simp
  | a :: t => by
    intro p hp
    rw [List.zip_cons_cons] at hp
    rcases List.mem_cons.mp hp with h | h
    · rw [h]
    · exact mem_zip_self t p h

theorem compare_headers_self (h : List PyStr) (hne : h ≠ []) : compare_headers h h = 1 := by
  unfold compare_headers
  rw [if_neg (by simp), if_pos hne]
  have hcnt : ((h.zip h).countP
      fun p => decide (pyLower (pyStrip p.1) = pyLower (pyStrip p.2))) = (h.zip h).length := by
    refine List.countP_eq_length.mpr fun p hp => ?_
    have := mem_zip_self h p hp
    simp [this]
  rw [hcnt, List.length_zip, min_self]
  refine div_self ?_
  exact_mod_cast (List.length_pos.mpr hne).ne'

theorem headers_ok_of_eq (t1 t2 : TableBlock) (hc : t1.columns = t2.columns)
    (hne : t1.columns ≠ []) : headers_ok t1 t2 = true := by
  unfold headers_ok
  rw [if_pos ⟨hne, hc ▸ hne⟩, if_neg]
  rw [← hc, compare_headers_self _ hne]
  norm_num

theorem can_merge_of (t1 t2 : TableBlock) (hgap : |t2.page_start - t1.page_end| ≤ 1)
    (hc : t1.columns = t2.columns) (hne : t1.columns ≠ [])
    (hx : x_coords_ok t1 t2 10 = true) : can_merge_tables t1 t2 = true := by
  unfold can_merge_tables
  rw [Bool.and_eq_true, Bool.and_eq_true, Bool.and_eq_true]
  refine ⟨⟨⟨decide_eq_true hgap, ?_⟩, hx⟩, headers_ok_of_eq t1 t2 hc hne⟩
  unfold column_count_ok
  rw [if_neg (by rw [hc]; simp)]

theorem x_coords_ok_congr (t1 t1' t2 : TableBlock) (tol : ℚ)
    (h : t1.x_coordinates = t1'.x_coordinates) :
    x_coords_ok t1 t2 tol = x_coords_ok t1' t2 tol := by
  unfold x_coords_ok
  rw [h]

theorem merge_fields (t1 t2 : TableBlock) (h : t1.page_start ≤ t2.page_start) :
    (merge_tables_if_compatible t1 t2).page_start = min t1.page_start t2.page_start ∧
    (merge_tables_if_compatible t1 t2).page_end = max t1.page_end t2.page_end ∧
    (merge_tables_if_compatible t1 t2).columns =
      (if t1.columns ≠ [] then t1.columns else t2.columns) ∧
    (merge_tables_if_compatible t1 t2).rows = t1.rows ++ t2.rows ∧
    (merge_tables_if_compatible t1 t2).x_coordinates =
      (if t1.x_coordinates ≠ [] then t1.x_coordinates else t2.x_coordinates) := by
  unfold merge_tables_if_compatible
  simp [h]

/-- C2: three buffered single-page candidates on consecutive pages with
identical non-empty columns and pairwise compatible x-coordinates collapse
under `TableBuffer.merge` into exactly one `MergedTable` whose rows are
`A.rows ++ B.rows ++ C.rows`, whose page range is
`(A.page_start, C.page_end)` and whose `original_tables` is `[A, B, C]`
(each absorption compares the cumulative merged table with the next
candidate); and a lone candidate becomes the singleton `MergedTable`
listing itself. -/
theorem merge_chain_of_three (A B C : TableBlock)
    (hA : A.page_end = A.page_start) (hB : B.page_end = B.page_start)
    (hC : C.page_end = C.page_start)
    (hABp : B.page_start = A.page_start + 1) (hBCp : C.page_start = B.page_start + 1)
    (hABc : A.columns = B.columns) (hBCc : B.columns = C.columns)
    (hcne : A.columns ≠ [])
    (hxAB : x_coords_ok A B 10 = true) (hxBC : x_coords_ok B C 10 = true)
    (hxAC : x_coords_ok A C 10 = true) :
    TableBuffer.merge [A, B, C] =
      [⟨[A, B, C], A.columns, A.rows ++ B.rows ++ C.rows, (A.page_start, C.page_end)⟩] ∧
    ∀ t : TableBlock, TableBuffer.merge [t] =
      [⟨[t], t.columns, t.rows, (t.page_start, t.page_end)⟩] := by
  have h1 : A.page_start ≤ B.page_start := by omega
  have h2 : B.page_start ≤ C.page_start := by omega
  have hpAB : pageLe A B := h1
  have hpBC : pageLe B C := h2
  obtain ⟨hps1, hpe1, hcol1, hrow1, hx1⟩ := merge_fields A B h1
  have hABcolA : (merge_tables_if_compatible A B).columns = A.columns := by
    rw [hcol1, if_pos hcne]
  have h3 : (merge_tables_if_compatible A B).page_start ≤ C.page_start := by
    rw [hps1]
    omega
  obtain ⟨hps2, hpe2, hcol2, hrow2, hx2⟩ :=
    merge_fields (merge_tables_if_compatible A B) C h3
  have hg1 : |B.page_start - A.page_end| ≤ 1 := by
    rw [hABp, hA]
    simp
  have hm1 : can_merge_tables A B = true := can_merge_of A B hg1 hABc hcne hxAB
  have hg2 : |C.page_start - (merge_tables_if_compatible A B).page_end| ≤ 1 := by
    have hmaxeq : A.page_end ⊔ B.page_end = B.page_end := max_eq_right (by omega)
    rw [hpe1, hmaxeq, hBCp, hB]
    simp
  have hxABC : x_coords_ok (merge_tables_if_compatible A B) C 10 = true := by
    by_cases hax : A.x_coordinates ≠ []
    · rw [x_coords_ok_congr _ A C 10 (by rw [hx1, if_pos hax])]
      exact hxAC
    · rw [x_coords_ok_congr _ B C 10 (by rw [hx1, if_neg hax])]
      exact hxBC
  have hm2 : can_merge_tables (merge_tables_if_compatible A B) C = true := by
    refine can_merge_of _ _ hg2 ?_ ?_ hxABC
    · rw [hABcolA, hABc, hBCc]
    · rw [hABcolA]
      exact hcne
  constructor
  · unfold TableBuffer.merge
    rw [if_neg (by simp)]
    have hsort : List.insertionSort pageLe [A, B, C] = [A, B, C] := by
      simp [List.insertionSort, List.orderedInsert, hpAB, hpBC]
    rw [hsort]
    have habs : absorbRun A [A] [B, C] =
        (merge_tables_if_compatible (merge_tables_if_compatible A B) C, [A, B, C], []) := by
      rw [absorbRun, if_pos hm1, absorbRun, if_pos hm2, absorbRun]
      simp
    rw [mergeSweep, habs, mergeSweep]
    refine congrArg (fun z => [z]) ?_
    refine (MergedTable.mk.injEq ..).mpr ⟨rfl, ?_, ?_, ?_⟩
    · rw [hcol2, hABcolA, if_pos hcne]
    · rw [hrow2, hrow1, List.append_assoc]
    · rw [hps2, hpe2, hps1, hpe1]
      refine Prod.ext ?_ ?_ <;> simp <;> omega
  · intro t
    unfold TableBuffer.merge
    rw [if_neg (by simp)]
    have hs : List.insertionSort pageLe [t] = [t] := rfl
    rw [hs, mergeSweep]
    simp [absorbRun, mergeSweep]

/-- First witness candidate for claim C2: a one-row table on page 1. -/
def wA : TableBlock := ⟨1, 1, [['h']], [[['a']]], (0, 0, 1, 1), []⟩

/-- Second witness candidate for claim C2: a one-row table on page 2. -/
def wB : TableBlock := ⟨2, 2, [['h']], [[['b']]], (0, 0, 1, 1), []⟩

/-- Third witness candidate for claim C2: a one-row table on page 3. -/
def wC : TableBlock := ⟨3, 3, [['h']], [[['c']]], (0, 0, 1, 1), []⟩

/-- Witness for C2 at three concrete consecutive-page candidates. -/
theorem merge_chain_of_three_witness :
    TableBuffer.merge [wA, wB, wC] =
      [⟨[wA, wB, wC], wA.columns, wA.rows ++ wB.rows ++ wC.rows,
        (wA.page_start, wC.page_end)⟩] :=
  (merge_chain_of_three wA wB wC (by decide) (by decide) (by decide) (by decide)
    (by decide) (by decide) (by decide) (by decide) (by decide) (by decide) (by decide)).1

/-- The lines of a page that `detect_table_structure` keeps: those with more
than one text span. -/
def qualifyingLines (pageLines : List (List ℚ)) : List (List ℚ) :=
  pageLines.filter fun spans => decide (1 < spans.length)

/-- Modelled from the spec wording of claim C4: the number of qualifying
lines that contain at least one run falling into the 10-unit bin `b`. -/
def binLineCount (pageLines : List (List ℚ)) (b : ℚ) : ℕ :=
  ((qualifyingLines pageLines).filter fun l => l.any fun x => decide (roundTo10 x = b)).length

/-- Modelled from the spec wording of claim C4: at least 3 qualifying lines,
and at least 2 distinct bins that each recur in at least 3 of those lines. -/
def specHasTable (pageLines : List (List ℚ)) : Prop :=
  3 ≤ (qualifyingLines pageLines).length ∧
  2 ≤ ((((qualifyingLines pageLines).flatMap id).map roundTo10).dedup.countP
        fun b => decide (3 ≤ binLineCount pageLines b))

/-- Invariant of the `column_candidates` dictionary: keys are distinct, each
key maps to its number of occurrences among the processed bins, and the keys
are exactly the processed bins. -/
def candInv (S : List (ℚ × ℕ)) (pre : List ℚ) : Prop :=
  (S.map Prod.fst).Nodup ∧ (∀ p ∈ S, p.2 = pre.count p.1) ∧
  ∀ b : ℚ, b ∈ pre ↔ b ∈ S.map Prod.fst

theorem addCandidate_inv (S : List (ℚ × ℕ)) (pre : List ℚ) (b : ℚ) (h : candInv S pre) :
    candInv (addCandidate S b) (pre ++ [b]) := by
  obtain ⟨hnd, hcount, hmem⟩ := h
  unfold addCandidate
  split_ifs with hb
  · have hbkeys : b ∈ S.map Prod.fst := by
      rw [List.any_eq_true] at hb
      obtain ⟨p, hp, hpb⟩ := hb
      rw [beq_iff_eq] at hpb
      exact hpb ▸ List.mem_map_of_mem Prod.fst hp
    have hkeys : ((S.map fun p => if p.1 == b then (p.1, p.2 + 1) else p).map Prod.fst) =
        S.map Prod.fst := by
      rw [List.map_map]
      congr 1
      funext p
      show (if (p.1 == b) = true then (p.1, p.2 + 1) else p).1 = p.1
      split <;> rfl
    refine ⟨hkeys ▸ hnd, ?_, ?_⟩
    · intro q hq
      rw [List.mem_map] at hq
      obtain ⟨p, hp, hq⟩ := hq
      subst hq
      by_cases hpb : (p.1 == b) = true
      · have hp1 : p.1 = b := beq_iff_eq.mp hpb
        rw [if_pos hpb]
        show p.2 + 1 = List.count (p.1, p.2 + 1).1 (pre ++ [b])
        rw [hcount p hp, List.count_append]
        show List.count p.1 pre + 1 = List.count p.1 pre + List.count p.1 [b]
        rw [hp1]
        simp
      · have hne : p.1 ≠ b := by simpa using hpb
        rw [if_neg hpb, hcount p hp, List.count_append,
          List.count_eq_zero.mpr (show p.1 ∉ [b] by simp [hne]), Nat.add_zero]
    · intro b'
      rw [List.mem_append, List.mem_singleton, hkeys]
      constructor
      · rintro (h' | rfl)
        · exact (hmem b').mp h'
        · exact hbkeys
      · intro h'
        exact Or.inl ((hmem b').mpr h')
  · have hbnot : b ∉ S.map Prod.fst := by
      intro hc
      rw [List.mem_map] at hc
      obtain ⟨p, hp, hpb⟩ := hc
      exact hb (List.any_eq_true.mpr ⟨p, hp, by rw [hpb]; exact beq_self_eq_true b⟩)
    have hbpre : b ∉ pre := fun hc => hbnot ((hmem b).mp hc)
    have hkeys : ((S ++ [(b, 1)]).map Prod.fst) = S.map Prod.fst ++ [b] := by
      rw [List.map_append]
      rfl
    refine ⟨?_, ?_, ?_⟩
    · rw [hkeys, List.nodup_append]
      exact ⟨hnd, List.nodup_singleton b, by simpa [List.disjoint_singleton] using hbnot⟩
    · intro q hq
      rcases List.mem_append.mp hq with hq' | hq'
      · have hq1 : q.1 ≠ b := by
          intro hc
          exact hbnot (hc ▸ List.mem_map_of_mem Prod.fst hq')
        rw [List.count_append, ← hcount q hq']
        simp [hq1]
      · rw [List.mem_singleton.mp hq']
        rw [List.count_append, List.count_eq_zero_of_not_mem hbpre]
        simp
    · intro b'
      simp only [hkeys, List.mem_append]
      exact or_congr_left (hmem b')

theorem column_candidates_inv (bins : List ℚ) :
    ∀ (S : List (ℚ × ℕ)) (pre : List ℚ), candInv S pre →
      candInv (bins.foldl addCandidate S) (pre ++ bins) := by
  induction bins with
  | nil =>
    intro S pre h
    simpa using h
  | cons b rest ih =>
    intro S pre h
    rw [List.foldl_cons]
    have := ih (addCandidate S b) (pre ++ [b]) (addCandidate_inv S pre b h)
    simpa using this

theorem candInv_column_candidates (bins : List ℚ) : candInv (column_candidates bins) bins := by
  have := column_candidates_inv bins [] [] ⟨List.nodup_nil, by simp, by simp⟩
  simpa [column_candidates] using this

theorem column_candidates_countP (bins : List ℚ) :
    ((column_candidates bins).countP fun p => decide (3 ≤ p.2)) =
      bins.dedup.countP fun b => decide (3 ≤ bins.count b) := by
  obtain ⟨hnd, hcount, hmem⟩ := candInv_column_candidates bins
  have hperm : ((column_candidates bins).map Prod.fst).Perm bins.dedup := by
    rw [List.perm_ext_iff_of_nodup hnd bins.nodup_dedup]
    intro a
    rw [List.mem_dedup]
    exact (hmem a).symm
  calc ((column_candidates bins).countP fun p => decide (3 ≤ p.2))
      = ((column_candidates bins).countP fun p => decide (3 ≤ bins.count p.1)) := by
        refine List.countP_congr fun p hp => ?_
        rw [hcount p hp]
    _ = (((column_candidates bins).map Prod.fst).countP
          fun b => decide (3 ≤ bins.count b)) := by
        rw [List.countP_map]
        rfl
    _ = bins.dedup.countP fun b => decide (3 ≤ bins.count b) := hperm.countP_eq _

/-- C4 amended: `detect_table_structure` reports a table iff there are at
least 3 lines with at least 2 runs each, and at least 2 distinct 10-unit
bins each collect at least 3 run occurrences across those lines (counting
every run, so a single line can contribute several occurrences to the same
bin); in particular a page with only 2 multi-run lines never yields a
table. -/
theorem detect_table_structure_iff (pageLines : List (List ℚ)) :
    (detect_table_structure pageLines = true ↔
      3 ≤ (qualifyingLines pageLines).length ∧
      2 ≤ ((((qualifyingLines pageLines).flatMap id).map roundTo10).dedup.countP
            fun b => decide
              (3 ≤ (((qualifyingLines pageLines).flatMap id).map roundTo10).count b))) ∧
    ((qualifyingLines pageLines).length = 2 → detect_table_structure pageLines = false) := by
  have hq : (pageLines.filter fun spans => decide (1 < spans.length)) =
      qualifyingLines pageLines := rfl
  have key := column_candidates_countP (((qualifyingLines pageLines).flatMap id).map roundTo10)
  constructor
  · simp only [detect_table_structure]
    rw [hq]
    split_ifs with h
    · simp only [Bool.false_eq_true, false_iff, not_and]
      intro hc
      omega
    · rw [decide_eq_true_iff, key]
      have h3 : 3 ≤ (qualifyingLines pageLines).length := not_lt.mp h
      simp [h3]
  · intro h2
    simp only [detect_table_structure]
    rw [hq, if_pos (by omega)]

/-- Witness for the amended C4: a page with exactly 2 multi-run lines is
never classified as containing a table. -/
theorem detect_table_structure_iff_witness :
    (qualifyingLines [[0, 0], [1, 2]]).length = 2 ∧
    detect_table_structure [[0, 0], [1, 2]] = false :=
  ⟨by decide, (detect_table_structure_iff [[0, 0], [1, 2]]).2 (by decide)⟩

/-- A page (given by the left x-coordinates of the spans of its lines) whose
first two lines each put three runs into one bin: the bins reach 3 run
occurrences without recurring in 3 distinct lines. -/
def ex4 : List (List ℚ) := [[0, 0, 0], [100, 100, 100], [200, 300]]

/-- C4 counterexample: on `ex4` the code reports a table (two bins reach 3
span occurrences each), but no bin recurs in 3 distinct lines, so the
claimed distinct-line reading is violated. -/
theorem detect_table_structure_counterexample :
    detect_table_structure ex4 = true ∧ ¬ specHasTable ex4 := by
  have r0 : roundTo10 0 = 0 := by norm_num [roundTo10, roundHalfEven]
  have r100 : roundTo10 100 = 100 := by norm_num [roundTo10, roundHalfEven]
  have r200 : roundTo10 200 = 200 := by norm_num [roundTo10, roundHalfEven]
  have r300 : roundTo10 300 = 300 := by norm_num [roundTo10, roundHalfEven]
  have hql : qualifyingLines ex4 = [[0, 0, 0], [100, 100, 100], [200, 300]] := by decide
  have hbins : ((qualifyingLines ex4).flatMap id).map roundTo10 =
      [0, 0, 0, 100, 100, 100, 200, 300] := by
    rw [hql]
    simp [r0, r100, r200, r300]
  constructor
  · simp only [detect_table_structure]
    have hq : (ex4.filter fun spans => decide (1 < spans.length)) = qualifyingLines ex4 := rfl
    rw [hq, hql, if_neg (by norm_num)]
    have hbins' : (([[0, 0, 0], [100, 100, 100], [200, 300]] : List (List ℚ)).flatMap id).map
        roundTo10 = [0, 0, 0, 100, 100, 100, 200, 300] := hql ▸ hbins
    rw [hbins']
    decide
  · have h0 : binLineCount ex4 0 = 1 := by
      unfold binLineCount
      rw [hql]
      norm_num [r0, r100, r200, r300]
    have h100 : binLineCount ex4 100 = 1 := by
      unfold binLineCount
      rw [hql]
      norm_num [r0, r100, r200, r300]
    have h200 : binLineCount ex4 200 = 1 := by
      unfold binLineCount
      rw [hql]
      norm_num [r0, r100, r200, r300]
    have h300 : binLineCount ex4 300 = 1 := by
      unfold binLineCount
      rw [hql]
      norm_num [r0, r100, r200, r300]
    rintro ⟨h3le, h2le⟩
    rw [hbins] at h2le
    have hdd : ([0, 0, 0, 100, 100, 100, 200, 300] : List ℚ).dedup = [0, 100, 200, 300] := by
      decide
    rw [hdd] at h2le
    simp [List.countP_cons, h0, h100, h200, h300] at h2le

/-- Witness for C10 at a concrete box list and the non-negative tolerance
10. -/
theorem get_column_positions_invariants_witness :
    (0 : ℚ) ≤ 10 ∧
    ((get_column_positions [((0:ℚ), (0:ℚ), (5:ℚ), (5:ℚ)), ((3:ℚ), (0:ℚ), (8:ℚ), (5:ℚ)),
        ((50:ℚ), (0:ℚ), (60:ℚ), (5:ℚ))] 10).Sorted (· < ·) ∧
      (∀ x ∈ get_column_positions [((0:ℚ), (0:ℚ), (5:ℚ), (5:ℚ)), ((3:ℚ), (0:ℚ), (8:ℚ), (5:ℚ)),
          ((50:ℚ), (0:ℚ), (60:ℚ), (5:ℚ))] 10,
        x ∈ ([((0:ℚ), (0:ℚ), (5:ℚ), (5:ℚ)), ((3:ℚ), (0:ℚ), (8:ℚ), (5:ℚ)),
          ((50:ℚ), (0:ℚ), (60:ℚ), (5:ℚ))] : List (ℚ × ℚ × ℚ × ℚ)).map fun b => b.1) ∧
      (get_column_positions [((0:ℚ), (0:ℚ), (5:ℚ), (5:ℚ)), ((3:ℚ), (0:ℚ), (8:ℚ), (5:ℚ)),
          ((50:ℚ), (0:ℚ), (60:ℚ), (5:ℚ))] 10).Pairwise fun a b => (10:ℚ) < |a - b|) :=
  ⟨by decide, get_column_positions_invariants _ 10 (by decide)⟩
